import Mathlib

/-!
Verification development for the real-time audio core of the `pfad`
repository (week06 scripts): the interactive effects processor
(`7_interactive_effects.py`), the beat detector (`8_beat_detector.py`) and
the advanced recorder (`9_advanced_recorder.py`).

Samples and timestamps are embedded as rationals (the Python code works on
float32/float64 values; all the operations modelled here are exact
arithmetic, comparisons, and list manipulation).  The one transcendental
operation, `np.tanh` in the distortion stage, is embedded over the reals
via `Real.tanh`.  Queues (`queue.Queue`) are embedded as lists with the
head being the oldest (front) element; `put` appends at the back, `get`
pops the front.
-/

/-! ## Shared rolling-buffer primitive

`np.roll(buf, -len(samples))` followed by `buf[-len(samples):] = samples`,
the shift-and-append idiom used for every rolling buffer in the three
scripts (visualization buffers, the echo delay line, the onset-strength
history). -/

/-- Embeds `np.roll(buf, -k); buf[-k:] = samples` with `k = samples.length`. -/
def ringWrite {α : Type} (buf samples : List α) : List α :=
  let rolled := buf.drop samples.length ++ buf.take samples.length
  rolled.take (rolled.length - samples.length) ++ samples

/-- Python slice `l[-n:]` (for `0 < n`): the last `min n l.length` elements. -/
def takeLast {α : Type} (n : ℕ) (l : List α) : List α :=
  l.drop (l.length - n)

theorem ringWrite_eq_drop_append {α : Type} (buf samples : List α)
    (h : samples.length ≤ buf.length) :
    ringWrite buf samples = buf.drop samples.length ++ samples := by
  have hd : (buf.drop samples.length).length = buf.length - samples.length := by
    simp
  have hlen2 : (buf.drop samples.length ++ buf.take samples.length).length
      = buf.length := by
    simp
    omega
  show (buf.drop samples.length ++ buf.take samples.length).take
      ((buf.drop samples.length ++ buf.take samples.length).length
        - samples.length) ++ samples
    = buf.drop samples.length ++ samples
  rw [hlen2]
  congr 1
  rw [List.take_append_eq_append_take, hd]
  simp

/-! ## Interactive effects processor (`7_interactive_effects.py`)

Constants: `RATE = 44100`, `CHUNK = 512`, queues `maxsize=50`,
`echo_buffer = np.zeros(int(RATE * 2))` (2-second delay line). -/

/-- Embeds `delay_samples = int(self.echo_delay * self.RATE)` (`RATE = 44100`;
`int()` truncates, and `echo_delay` is nonnegative, so this is the floor). -/
def delaySamples (echo_delay : ℚ) : ℕ :=
  (⌊echo_delay * 44100⌋).toNat

/-- Embeds `self.echo_buffer = np.zeros(int(self.RATE * 2))`: the 2 second delay
line, 88200 zero samples at engine start. -/
def echoInitBuffer : List ℚ :=
  List.replicate (44100 * 2) 0

/-- Embeds `apply_echo`: when disabled, return the chunk (the buffer is not
touched).  When enabled:
`output = chunk.copy()`;
`for i in range(len(chunk)): if i < len(buf) - delay_samples:
  output[i] += feedback * buf[i + delay_samples]`;
then `buf = np.roll(buf, -len(chunk)); buf[-len(chunk):] = output`.
Returns `(output, updated buffer)` — the buffer is instance state in the
source and is passed explicitly here. -/
def apply_echo (enabled : Bool) (echo_delay feedback : ℚ)
    (chunk buffer : List ℚ) : List ℚ × List ℚ :=
  if enabled then
    let d := delaySamples echo_delay
    let out := List.ofFn (fun i : Fin chunk.length =>
      if (i : ℤ) < (buffer.length : ℤ) - (d : ℤ) then
        chunk.getD i 0 + feedback * buffer.getD (i + d) 0
      else
        chunk.getD i 0)
    (out, ringWrite buffer out)
  else
    (chunk, buffer)

/-- Embeds `input_callback`: `self.input_queue.put(audio_data, block=False)` with
`except queue.Full: pass` — the incoming frame is dropped when the queue
(maxsize 50) is full. -/
def inputQueuePut {α : Type} (q : List α) (x : α) : List α :=
  if q.length < 50 then q ++ [x] else q

/-- Embeds the `process_audio` output push: `self.output_queue.put(processed,
block=False)` with `except queue.Full: pass` — the processed frame is
dropped when the queue (maxsize 50) is full. -/
def outputQueuePut {α : Type} (q : List α) (x : α) : List α :=
  if q.length < 50 then q ++ [x] else q

/-- Embeds the `9_advanced_recorder.py` `audio_callback`: `put(..., block=False)`;
on `queue.Full`, `get_nowait()` (drop the oldest) and `put` again; on
`queue.Empty` during that recovery, `pass`.  Queue `maxsize=100`. -/
def recorderQueuePut {α : Type} (q : List α) (x : α) : List α :=
  if q.length < 100 then q ++ [x]
  else
    match q with
    | [] => []
    | _ :: rest => if rest.length < 100 then rest ++ [x] else rest

/-- Embeds the `8_beat_detector.py` `audio_callback`: `self.audio_queue.put(...,
block=False)` with `except queue.Full: pass` (maxsize 50). -/
def beatQueuePut {α : Type} (q : List α) (x : α) : List α :=
  if q.length < 50 then q ++ [x] else q

/-- Embeds `output_callback`: `data = self.output_queue.get_nowait()` and return
it; on `queue.Empty` return `np.zeros(frame_count)`.  Returns the emitted
frame and the remaining queue. -/
def output_callback (q : List (List ℚ)) (frame_count : ℕ) :
    List ℚ × List (List ℚ) :=
  match q with
  | [] => (List.replicate frame_count 0, [])
  | d :: rest => (d, rest)

/-- Embeds `apply_distortion`: when enabled,
`amplified = chunk * gain; distorted = np.tanh(amplified);
return distorted * 0.5`; when disabled, the chunk unchanged. -/
noncomputable def apply_distortion (enabled : Bool) (gain : ℝ)
    (chunk : List ℝ) : List ℝ :=
  if enabled then chunk.map (fun s => Real.tanh (s * gain) * (1 / 2))
  else chunk

/-! ## Beat detector (`8_beat_detector.py`)

Constants: `RATE = 44100`, `CHUNK = 1024`, `MIN_BPM = 60`, `MAX_BPM = 180`,
`BEAT_THRESHOLD = 0.3`, `ONSET_THRESHOLD = 0.1`,
`onset_buffer = np.zeros(200)`, initial `last_beat_time = 0`,
`current_tempo = 120`. -/

/-- Embeds `np.mean` of a list (`sum / length`; `0` on the empty list since in
Lean `x / 0 = 0` — the code never takes a mean of an empty array). -/
def npMean (l : List ℚ) : ℚ :=
  l.sum / l.length

/-- Population variance, `np.std(l) ^ 2` (`np.std` defaults to `ddof=0`). -/
def npVar (l : List ℚ) : ℚ :=
  (l.map (fun x => (x - npMean l) ^ 2)).sum / l.length

/-- Embeds `np.max` of a nonempty array (`0` for the empty list, never taken). -/
def npMax : List ℚ → ℚ
  | [] => 0
  | x :: xs => xs.foldl max x

/-- Embeds `np.median`: sort ascending; middle element for odd length, mean of
the two middle elements for even length. -/
def npMedian (l : List ℚ) : ℚ :=
  let s := List.insertionSort (· ≤ ·) l
  if l.length % 2 = 1 then s.getD (l.length / 2) 0
  else (s.getD (l.length / 2 - 1) 0 + s.getD (l.length / 2) 0) / 2

/-- Embeds `np.diff`: adjacent differences. -/
def npDiff : List ℚ → List ℚ
  | a :: b :: rest => (b - a) :: npDiff (b :: rest)
  | _ => []

/-- The adaptive-threshold test of `detect_beats`:
`onset_strength > recent_mean + ONSET_THRESHOLD * recent_std` with
`ONSET_THRESHOLD = 0.1` and `recent_std = np.std(onset_buffer[-20:])`.
Since `std = sqrt variance` is irrational, the test is encoded by the
equivalent rational condition
`s - mean > 0 ∧ (s - mean)^2 > variance / 100`
(`(0.1 * sqrt v)^2 = v / 100`); `thresholdHit_iff_sqrt` below proves the
equivalence with the literal square-root form over `ℝ`. -/
def thresholdHit (s : ℚ) (l : List ℚ) : Prop :=
  0 < s - npMean l ∧ npVar l / 100 < (s - npMean l) ^ 2

instance (s : ℚ) (l : List ℚ) : Decidable (thresholdHit s l) :=
  inferInstanceAs (Decidable (_ ∧ _))

/-- Lemma: `npVar` is a sum of squares over a natural number: nonnegative. -/
theorem npVar_nonneg (l : List ℚ) : 0 ≤ npVar l := by
  unfold npVar
  apply div_nonneg
  · apply List.sum_nonneg
    intro x hx
    simp only [List.mem_map] at hx
    obtain ⟨y, _, rfl⟩ := hx
    positivity
  · positivity

/-- Faithfulness of the encoding of the adaptive threshold: over the
reals, `s > m + 0.1 * sqrt v` (with `v ≥ 0`) is exactly
`s - m > 0 ∧ (s - m)^2 > v / 100`. -/
theorem thresholdHit_iff_sqrt (s m v : ℚ) (hv : (0 : ℚ) ≤ v) :
    ((m : ℝ) + (1 / 10) * Real.sqrt (v : ℝ) < (s : ℝ)) ↔
      (0 < s - m ∧ v / 100 < (s - m) ^ 2) := by
  have hv' : (0 : ℝ) ≤ (v : ℝ) := by exact_mod_cast hv
  have hs : (0 : ℝ) ≤ Real.sqrt (v : ℝ) := Real.sqrt_nonneg _
  constructor
  · intro h
    have h1 : (0 : ℝ) < (s : ℝ) - (m : ℝ) := by nlinarith
    have h2 : (1 / 10 : ℝ) * Real.sqrt (v : ℝ) < (s : ℝ) - (m : ℝ) := by linarith
    have h3 : ((1 / 10 : ℝ) * Real.sqrt (v : ℝ)) ^ 2 < ((s : ℝ) - (m : ℝ)) ^ 2 := by
      apply sq_lt_sq' <;> nlinarith
    have h4 : ((1 / 10 : ℝ) * Real.sqrt (v : ℝ)) ^ 2 = (v : ℝ) / 100 := by
      rw [mul_pow, Real.sq_sqrt hv']
      ring
    rw [h4] at h3
    constructor
    · exact_mod_cast h1
    · have : ((v : ℝ)) / 100 < (((s : ℝ) - (m : ℝ))) ^ 2 := h3
      have hcast : (((s - m : ℚ) : ℝ)) ^ 2 = ((s : ℝ) - (m : ℝ)) ^ 2 := by
        push_cast
        ring
      exact_mod_cast this
  · rintro ⟨h1, h2⟩
    have h1' : (0 : ℝ) < (s : ℝ) - (m : ℝ) := by exact_mod_cast h1
    have h2' : ((v : ℝ)) / 100 < ((s : ℝ) - (m : ℝ)) ^ 2 := by exact_mod_cast h2
    have h3 : Real.sqrt ((v : ℝ) / 100) < (s : ℝ) - (m : ℝ) := by
      rw [show ((s : ℝ) - (m : ℝ)) = Real.sqrt (((s : ℝ) - (m : ℝ)) ^ 2) from
        (Real.sqrt_sq h1'.le).symm]
      exact Real.sqrt_lt_sqrt (by positivity) h2'
    have h4 : Real.sqrt ((v : ℝ) / 100) = (1 / 10) * Real.sqrt (v : ℝ) := by
      rw [show ((v : ℝ) / 100) = (v : ℝ) * (1 / 10) ^ 2 by ring]
      rw [Real.sqrt_mul hv', Real.sqrt_sq (by norm_num)]
      ring
    rw [h4] at h3
    linarith

/-- The mutable beat-detection state of the `BeatDetector` instance. -/
structure BeatState where
  onsetBuf : List ℚ
  lastBeatTime : ℚ
  beatTimes : List ℚ
  tempo : ℚ
  tempoHist : List ℚ
  deriving Repr, DecidableEq

/-- State at engine start: `onset_buffer = np.zeros(200)`,
`last_beat_time = 0`, `beat_times = []`, `current_tempo = 120`,
`tempo_history = []`. -/
def initBeatState : BeatState :=
  { onsetBuf := List.replicate 200 0
    lastBeatTime := 0
    beatTimes := []
    tempo := 120
    tempoHist := [] }

/-- Embeds `update_tempo`: no-op when fewer than 2 beats; otherwise intervals of
the last 10 beats (`np.diff(beat_times[-10:])`), outliers removed by
`|interval - median| < median * 0.5`, mean of survivors converted to BPM,
and only when `MIN_BPM <= new_tempo <= MAX_BPM` the smoothing
`tempo = 0.8 * tempo + 0.2 * new_tempo` is applied and recorded in
`tempo_history` (trimmed to its last 50 entries). -/
def update_tempo (beatTimes : List ℚ) (tempo : ℚ) (hist : List ℚ) :
    ℚ × List ℚ :=
  if beatTimes.length < 2 then (tempo, hist)
  else
    let intervals := npDiff (takeLast 10 beatTimes)
    if 0 < intervals.length then
      let med := npMedian intervals
      let valid := intervals.filter (fun x => |x - med| < med * (1 / 2))
      if 0 < valid.length then
        let avg := npMean valid
        let newTempo := 60 / avg
        if 60 ≤ newTempo ∧ newTempo ≤ 180 then
          let t := (8 / 10) * tempo + (2 / 10) * newTempo
          let h := hist ++ [t]
          (t, if 50 < h.length then takeLast 50 h else h)
        else (tempo, hist)
      else (tempo, hist)
    else (tempo, hist)

/-- Embeds `detect_beats(onset_strength, current_time)`: roll the new strength
into the 200-sample onset buffer; compute the adaptive threshold over the
last 20 entries; a beat fires iff the strength exceeds the threshold and
`BEAT_THRESHOLD = 0.3` and `current_time - last_beat_time > 60 / MAX_BPM`, and the strength equals the maximum of the last 5 buffer
entries; on fire, `last_beat_time := current_time`, the time is appended
to `beat_times` which is pruned to the last 10 seconds, and the tempo is
updated.  Returns the new state and `is_beat`. -/
def detect_beats (st : BeatState) (s t : ℚ) : BeatState × Bool :=
  let buf := ringWrite st.onsetBuf [s]
  let last20 := takeLast 20 buf
  if thresholdHit s last20 ∧ (3 / 10 : ℚ) < s ∧
      (60 / 180 : ℚ) < t - st.lastBeatTime then
    if 5 ≤ buf.length then
      if s = npMax (takeLast 5 buf) then
        let bt := (st.beatTimes ++ [t]).filter (fun u => t - u < 10)
        let tp := update_tempo bt st.tempo st.tempoHist
        (⟨buf, t, bt, tp.1, tp.2⟩, true)
      else (⟨buf, st.lastBeatTime, st.beatTimes, st.tempo, st.tempoHist⟩, false)
    else (⟨buf, st.lastBeatTime, st.beatTimes, st.tempo, st.tempoHist⟩, false)
  else (⟨buf, st.lastBeatTime, st.beatTimes, st.tempo, st.tempoHist⟩, false)

/-- Run `detect_beats` over a list of `(onset_strength, timestamp)` pairs
(the processing loop), collecting the timestamps of the fired beats in
order. -/
def runDetect (st : BeatState) : List (ℚ × ℚ) → BeatState × List ℚ
  | [] => (st, [])
  | (s, t) :: rest =>
    let step := detect_beats st s t
    let further := runDetect step.1 rest
    (further.1, (if step.2 then [t] else []) ++ further.2)

/-! ## Onset strength (`compute_onset_strength`)

`scipy.signal.spectrogram(chunk, window=hann, nperseg=1024,
noverlap=512)` produces one magnitude column per analysis sub-frame; for a
chunk of `n` samples the number of columns is `(n - 512) / 512` when
`n ≥ 1024` (and the code returns `0` outright when `n < 1024`).  The
magnitude spectrogram itself is computed by the external scipy
collaborator; it is passed here as an abstract matrix
`mag : ℕ → ℕ → ℚ` (frequency bin, column), so the properties proved below
hold for every magnitude spectrogram scipy could return. -/

/-- Number of spectrogram columns scipy produces for an `n`-sample chunk
with `nperseg = 1024`, `noverlap = 512` (hop `512`). -/
def nSegments (n : ℕ) : ℕ :=
  if n < 1024 then 0 else (n - 512) / 512

/-- Number of one-sided frequency bins for `nperseg = 1024`. -/
def nFreqBins : ℕ := 513

/-- Spectral flux: per transition `j → j+1`, the sum over frequency bins
of `max (mag[f, j+1] - mag[f, j]) 0`
(`np.sum(np.maximum(magnitude[:, 1:] - magnitude[:, :-1], 0), axis=0)`). -/
def spectralFlux (mag : ℕ → ℕ → ℚ) (cols : ℕ) : List ℚ :=
  (List.range (cols - 1)).map (fun j =>
    ((List.range nFreqBins).map (fun f => max (mag f (j + 1) - mag f j) 0)).sum)

/-- Embeds `compute_onset_strength`: `0` when the chunk is shorter than the
window (1024); otherwise the mean spectral flux across sub-frame
transitions when there is more than one column, else `0`. -/
def compute_onset_strength (chunk : List ℚ) (mag : ℕ → ℕ → ℚ) : ℚ :=
  if chunk.length < 1024 then 0
  else
    let cols := nSegments chunk.length
    if 1 < cols then
      let flux := spectralFlux mag cols
      if 0 < flux.length then npMean flux else 0
    else 0

/-! ## Claim theorems -/

/-- C7: a rolling-buffer write appends the new samples at the end and
evicts exactly the oldest `len(samples)` entries, preserving the
chronological order of the rest; concretely, a capacity-4 buffer written
with `[1, 2]` and then `[3, 4, 5]` (starting from `[0, 0, 0, 0]`) ends
holding `[2, 3, 4, 5]`. -/
theorem ringWrite_evicts_oldest_and_appends :
    (∀ (buf samples : List ℚ), samples.length ≤ buf.length →
      ringWrite buf samples = buf.drop samples.length ++ samples) ∧
    ringWrite (ringWrite (List.replicate 4 (0 : ℚ)) [1, 2]) [3, 4, 5]
      = [2, 3, 4, 5] := by
  refine ⟨fun buf samples h => ringWrite_eq_drop_append buf samples h, ?_⟩
  decide

/-- Witness for C7: the general eviction law applied to the concrete
first write of the scenario. -/
theorem ringWrite_evicts_oldest_and_appends_witness :
    ringWrite (List.replicate 4 (0 : ℚ)) [1, 2]
      = (List.replicate 4 (0 : ℚ)).drop 2 ++ [1, 2] :=
  ringWrite_evicts_oldest_and_appends.1 (List.replicate 4 0) [1, 2]
    (by decide)

/-- C8: when the playback callback finds the output queue empty it emits a
frame of exactly `frame_count` zero samples — a full frame of silence,
never a short frame (the embedding is a total function: no error crosses
the callback boundary). -/
theorem output_callback_empty_queue_silence (frame_count : ℕ) :
    (output_callback [] frame_count).1 = List.replicate frame_count 0 ∧
    (output_callback [] frame_count).1.length = frame_count := by
  constructor
  · rfl
  · simp [output_callback]

/-- C10: a disabled `apply_echo` call returns the input chunk unchanged
and leaves the echo delay line untouched, so the pre-disable delay-line
contents are exactly what a later re-enabled call reads. -/
theorem apply_echo_disabled_identity (echo_delay feedback : ℚ)
    (chunk buffer : List ℚ) :
    apply_echo false echo_delay feedback chunk buffer = (chunk, buffer) ∧
    (∀ chunk2 : List ℚ,
      apply_echo true echo_delay feedback chunk2
          (apply_echo false echo_delay feedback chunk buffer).2
        = apply_echo true echo_delay feedback chunk2 buffer) := by
  constructor
  · rfl
  · intro chunk2
    rfl

/-- C2 counterexample: on a full processing-to-playback queue
(`output_queue`, maxsize 50) the push in `process_audio` leaves the queue
unchanged — it drops the incoming (newest) frame — rather than dropping
the oldest queued frame and retrying as the claim states. -/
theorem outputQueuePut_full_keeps_old_counterexample :
    outputQueuePut (List.range 50) 99 = List.range 50 ∧
    List.range 50 ≠ (List.range 50).drop 1 ++ [99] := by
  constructor
  · simp [outputQueuePut]
  · decide

/-- C2 (amended): every queue push in the audio path is non-blocking; on a
full queue, the capture-to-processing pushes of the effects processor and
the beat detector and also the processing-to-playback push drop the
incoming (newest) frame, while the advanced recorder's capture queue drops
the oldest queued frame and then retries the push. -/
theorem queuePut_policies {α : Type} (qf qn qr : List α) (x : α)
    (hf : qf.length = 50) (hn : qn.length < 50) (hr : qr.length = 100) :
    inputQueuePut qf x = qf ∧ inputQueuePut qn x = qn ++ [x] ∧
    beatQueuePut qf x = qf ∧ beatQueuePut qn x = qn ++ [x] ∧
    outputQueuePut qf x = qf ∧ outputQueuePut qn x = qn ++ [x] ∧
    recorderQueuePut qr x = qr.drop 1 ++ [x] ∧
    recorderQueuePut qn x = qn ++ [x] := by
  refine ⟨?_, ?_, ?_, ?_, ?_, ?_, ?_, ?_⟩
  · simp [inputQueuePut, hf]
  · simp [inputQueuePut, hn]
  · simp [beatQueuePut, hf]
  · simp [beatQueuePut, hn]
  · simp [outputQueuePut, hf]
  · simp [outputQueuePut, hn]
  · match qr, hr with
    | y :: rest, hr =>
      have hlen : (y :: rest).length = 100 := hr
      have hrest : rest.length = 99 := by
        simpa using hlen
      simp [recorderQueuePut, hlen, hrest]
  · have : qn.length < 100 := by omega
    simp [recorderQueuePut, this]

/-- Witness for C2 (amended): the policies at concrete queues — a full
50-frame queue, the empty queue, and a full 100-frame recorder queue. -/
theorem queuePut_policies_witness :
    inputQueuePut (List.replicate 50 (0 : ℕ)) 7 = List.replicate 50 0 ∧
    inputQueuePut ([] : List ℕ) 7 = [] ++ [7] ∧
    beatQueuePut (List.replicate 50 (0 : ℕ)) 7 = List.replicate 50 0 ∧
    beatQueuePut ([] : List ℕ) 7 = [] ++ [7] ∧
    outputQueuePut (List.replicate 50 (0 : ℕ)) 7 = List.replicate 50 0 ∧
    outputQueuePut ([] : List ℕ) 7 = [] ++ [7] ∧
    recorderQueuePut (List.replicate 100 (0 : ℕ)) 7
      = (List.replicate 100 (0 : ℕ)).drop 1 ++ [7] ∧
    recorderQueuePut ([] : List ℕ) 7 = [] ++ [7] :=
  queuePut_policies (List.replicate 50 0) [] (List.replicate 100 0) 7
    (by simp) (by simp) (by simp)

/-- C6: for every audio chunk and every magnitude spectrogram the external
STFT could produce, the onset strength is nonnegative, and it is exactly
`0` whenever fewer than 2 analysis sub-frames fit in the chunk (window
1024, hop 512: fewer than 2 sub-frames means fewer than 1536 samples). -/
theorem compute_onset_strength_nonneg_and_short_zero
    (chunk : List ℚ) (mag : ℕ → ℕ → ℚ) :
    0 ≤ compute_onset_strength chunk mag ∧
    (chunk.length < 1536 → compute_onset_strength chunk mag = 0) := by
  have hflux : ∀ x ∈ spectralFlux mag (nSegments chunk.length), 0 ≤ x := by
    intro x hx
    simp only [spectralFlux, List.mem_map] at hx
    obtain ⟨j, _, rfl⟩ := hx
    apply List.sum_nonneg
    intro y hy
    simp only [List.mem_map] at hy
    obtain ⟨f, _, rfl⟩ := hy
    exact le_max_right _ 0
  constructor
  · unfold compute_onset_strength
    split
    · exact le_refl 0
    · dsimp only
      split
      · split
        · apply div_nonneg
          · exact List.sum_nonneg hflux
          · positivity
        · exact le_refl 0
      · exact le_refl 0
  · intro hshort
    unfold compute_onset_strength
    split
    · rfl
    · next hlong =>
      have hcols : nSegments chunk.length = 1 := by
        unfold nSegments
        rw [if_neg hlong]
        omega
      rw [hcols]
      norm_num

/-- Witness for C6: a 1500-sample chunk (only one sub-frame fits) with the
all-zero magnitude spectrogram yields onset strength exactly `0`, which is
nonnegative. -/
theorem compute_onset_strength_witness :
    0 ≤ compute_onset_strength (List.replicate 1500 (0 : ℚ)) (fun _ _ => 0) ∧
    compute_onset_strength (List.replicate 1500 (0 : ℚ)) (fun _ _ => 0) = 0 :=
  ⟨(compute_onset_strength_nonneg_and_short_zero _ _).1,
    (compute_onset_strength_nonneg_and_short_zero _ _).2
      (by rw [List.length_replicate]; norm_num)⟩

/-- Lemma: `|Real.tanh x| < 1`: `tanh = sinh / cosh`, `cosh > 0` and
`cosh x ^ 2 = sinh x ^ 2 + 1 > sinh x ^ 2`. -/
theorem abs_tanh_lt_one (x : ℝ) : |Real.tanh x| < 1 := by
  have hc : 0 < Real.cosh x := Real.cosh_pos x
  have hsq : Real.cosh x ^ 2 = Real.sinh x ^ 2 + 1 := Real.cosh_sq x
  have habs : |Real.sinh x| < Real.cosh x := by
    nlinarith [abs_nonneg (Real.sinh x), sq_abs (Real.sinh x)]
  rw [Real.tanh_eq_sinh_div_cosh, abs_div, abs_of_pos hc, div_lt_one hc]
  exact habs

/-- C9: every sample the enabled distortion stage outputs has absolute
value strictly below `0.5`: the output is `tanh (gain * sample) * 0.5` and
`|tanh| < 1`. -/
theorem apply_distortion_output_lt_half (gain : ℝ) (chunk : List ℝ)
    (y : ℝ) (hy : y ∈ apply_distortion true gain chunk) :
    |y| < 1 / 2 := by
  simp only [apply_distortion, if_pos, List.mem_map] at hy
  obtain ⟨s, _, rfl⟩ := hy
  rw [abs_mul]
  have h1 : |Real.tanh (s * gain)| < 1 := abs_tanh_lt_one _
  have h2 : |(1 / 2 : ℝ)| = 1 / 2 := by norm_num
  rw [h2]
  nlinarith [abs_nonneg (Real.tanh (s * gain))]

/-- Witness for C9: the distortion of the one-sample zero frame at gain 2
outputs `tanh (0 * 2) * 0.5`, which is in the output list and has absolute
value below `0.5`. -/
theorem apply_distortion_output_lt_half_witness :
    Real.tanh (0 * 2) * (1 / 2) ∈ apply_distortion true 2 [0] ∧
    |Real.tanh (0 * 2) * (1 / 2)| < 1 / 2 :=
  ⟨by simp [apply_distortion],
    apply_distortion_output_lt_half 2 [0] _ (by simp [apply_distortion])⟩

/-- A single `update_tempo` call keeps the tempo inside `[60, 180]`: the
tempo either stays unchanged or becomes `0.8 * old + 0.2 * new` with
`60 ≤ new ≤ 180`, a convex combination of in-range values. -/
theorem update_tempo_bounds (bt : List ℚ) (t : ℚ) (h : List ℚ)
    (h60 : 60 ≤ t) (h180 : t ≤ 180) :
    60 ≤ (update_tempo bt t h).1 ∧ (update_tempo bt t h).1 ≤ 180 := by
  rw [update_tempo]
  dsimp only
  split
  · exact ⟨h60, h180⟩
  · split
    · split
      · split
        · next hcond =>
          dsimp only
          exact ⟨by linarith [hcond.1, hcond.2], by linarith [hcond.1, hcond.2]⟩
        · exact ⟨h60, h180⟩
      · exact ⟨h60, h180⟩
    · exact ⟨h60, h180⟩

/-- C4: starting from the initial 120 BPM, the smoothed tempo stays within
`[MIN_BPM, MAX_BPM] = [60, 180]` after any sequence of `update_tempo`
calls (with any beat histories), since each call either leaves the tempo
unchanged or moves it to `0.8 * previous + 0.2 * new` with the new value
in range. -/
theorem tempo_in_range_after_updates (updates : List (List ℚ)) :
    60 ≤ (updates.foldl (fun p bt => update_tempo bt p.1 p.2)
        ((120 : ℚ), ([] : List ℚ))).1 ∧
    (updates.foldl (fun p bt => update_tempo bt p.1 p.2)
        ((120 : ℚ), ([] : List ℚ))).1 ≤ 180 := by
  have main : ∀ (us : List (List ℚ)) (p : ℚ × List ℚ), 60 ≤ p.1 → p.1 ≤ 180 →
      60 ≤ (us.foldl (fun p bt => update_tempo bt p.1 p.2) p).1 ∧
      (us.foldl (fun p bt => update_tempo bt p.1 p.2) p).1 ≤ 180 := by
    intro us
    induction us with
    | nil => exact fun p h1 h2 => ⟨h1, h2⟩
    | cons b rest ih =>
      intro p h1 h2
      have hb := update_tempo_bounds b p.1 p.2 h1 h2
      exact ih _ hb.1 hb.2
  exact main updates (120, []) (by norm_num) (by norm_num)

/-- Number of adjacent differences (`np.diff` drops one element). -/
theorem npDiff_length (l : List ℚ) : (npDiff l).length = l.length - 1 := by
  induction l with
  | nil => rfl
  | cons a rest ih =>
    cases rest with
    | nil => rfl
    | cons b r =>
      simp only [npDiff, List.length_cons, ih]
      omega

/-- The claim's version of the tempo update (refinement comparison
definition, following the claim's words, not the source): intervals
deviating from the median by MORE than 50% of the median are discarded
(the 50% boundary is kept), and the smoothed tempo is CLAMPED into
`[MIN_BPM, MAX_BPM]`. -/
def update_tempo_claim (beatTimes : List ℚ) (tempo : ℚ) : ℚ :=
  if beatTimes.length < 2 then tempo
  else
    let intervals := npDiff (takeLast 10 beatTimes)
    let med := npMedian intervals
    let valid := intervals.filter (fun x => |x - med| ≤ med * (1 / 2))
    if valid = [] then tempo
    else max 60 (min 180 ((8 / 10) * tempo + (2 / 10) * (60 / npMean valid)))

/-- The amended description of the tempo update: intervals deviating from
the median by 50% of the median OR MORE are discarded, and the smoothed
value `0.8 * previous + 0.2 * new` is adopted only when the new BPM
already lies within `[MIN_BPM, MAX_BPM]` — otherwise the tempo is left
unchanged (there is no clamping). -/
def update_tempo_amended (beatTimes : List ℚ) (tempo : ℚ) : ℚ :=
  if beatTimes.length < 2 then tempo
  else
    let intervals := npDiff (takeLast 10 beatTimes)
    let med := npMedian intervals
    let valid := intervals.filter (fun x => |x - med| < med * (1 / 2))
    if valid = [] then tempo
    else
      let newTempo := 60 / npMean valid
      if 60 ≤ newTempo ∧ newTempo ≤ 180 then
        (8 / 10) * tempo + (2 / 10) * newTempo
      else tempo

/-- C5 counterexample: three beats at `0 s`, `0.25 s`, `0.5 s` (240 BPM,
outside `[MIN_BPM, MAX_BPM]`).  The code leaves the tempo at 120 — it
rejects the out-of-range new tempo instead of clamping — while the claim's
"smooth then clamp" rule yields `0.8 * 120 + 0.2 * 240 = 144`. -/
theorem update_tempo_clamp_counterexample :
    (update_tempo [0, 1 / 4, 1 / 2] 120 []).1 = 120 ∧
    update_tempo_claim [0, 1 / 4, 1 / 2] 120 = 144 ∧
    (update_tempo [0, 1 / 4, 1 / 2] 120 []).1
      ≠ update_tempo_claim [0, 1 / 4, 1 / 2] 120 := by
  have e1 : (update_tempo [0, 1 / 4, 1 / 2] 120 []).1 = 120 := by
    norm_num [update_tempo, npDiff, takeLast, npMedian, npMean,
      List.insertionSort, List.orderedInsert]
  have e2 : update_tempo_claim [0, 1 / 4, 1 / 2] 120 = 144 := by
    norm_num [update_tempo_claim, npDiff, takeLast, npMedian, npMean,
      List.insertionSort, List.orderedInsert]
    simp
  exact ⟨e1, e2, by rw [e1, e2]; norm_num⟩

/-- C5 (amended): the tempo produced by `update_tempo` is exactly the
amended description — intervals from up to the last 10 beats, outliers at
50% deviation or more discarded, survivors averaged and converted to BPM,
smoothing applied only when the new BPM is already in `[60, 180]` (no
clamping), and the silent no-op when fewer than 2 beats exist or no
interval survives. -/
theorem update_tempo_fst_eq_amended (bt : List ℚ) (t : ℚ) (h : List ℚ) :
    (update_tempo bt t h).1 = update_tempo_amended bt t := by
  rw [update_tempo, update_tempo_amended]
  dsimp only
  split
  · rfl
  · next hlen =>
    have hpos : 0 < (npDiff (takeLast 10 bt)).length := by
      rw [npDiff_length]
      simp only [takeLast, List.length_drop]
      omega
    rw [if_pos hpos]
    by_cases hv : (npDiff (takeLast 10 bt)).filter
        (fun x => |x - npMedian (npDiff (takeLast 10 bt))| <
          npMedian (npDiff (takeLast 10 bt)) * (1 / 2)) = []
    · have h0 : ¬ 0 < ((npDiff (takeLast 10 bt)).filter
          (fun x => |x - npMedian (npDiff (takeLast 10 bt))| <
            npMedian (npDiff (takeLast 10 bt)) * (1 / 2))).length := by
        rw [hv]
        simp
      rw [if_neg h0, if_pos hv]
    · rw [if_neg hv, if_pos (List.length_pos.mpr hv)]
      split
      · rfl
      · rfl

/-- Case analysis on one `detect_beats` step: either a beat fires, the
last-beat time becomes the current time and the minimum-spacing guard
`t - last_beat_time > 60 / MAX_BPM` held, or no beat fires and the
last-beat time is unchanged. -/
theorem detect_beats_cases (st : BeatState) (s t : ℚ) :
    ((detect_beats st s t).2 = true ∧ (detect_beats st s t).1.lastBeatTime = t ∧
      (60 / 180 : ℚ) < t - st.lastBeatTime) ∨
    ((detect_beats st s t).2 = false ∧
      (detect_beats st s t).1.lastBeatTime = st.lastBeatTime) := by
  rw [detect_beats]
  dsimp only
  split
  · next hc =>
    split
    · split
      · left
        exact ⟨rfl, rfl, hc.2.2⟩
      · right
        exact ⟨rfl, rfl⟩
    · right
      exact ⟨rfl, rfl⟩
  · right
    exact ⟨rfl, rfl⟩

/-- Spacing invariant of the beat tracker, for an arbitrary start state:
the fired-beat timestamps are pairwise more than `60 / MAX_BPM` apart, and
every fired timestamp exceeds the start state's last-beat time by more
than `60 / MAX_BPM`. -/
theorem runDetect_spacing (inp : List (ℚ × ℚ)) : ∀ st : BeatState,
    List.Pairwise (fun a b => (60 / 180 : ℚ) < b - a) (runDetect st inp).2 ∧
    ∀ u ∈ (runDetect st inp).2, st.lastBeatTime + 60 / 180 < u := by
  induction inp with
  | nil =>
    intro st
    constructor
    · exact List.Pairwise.nil
    · intro u hu
      simp [runDetect] at hu
  | cons p rest ih =>
    intro st
    obtain ⟨s, t⟩ := p
    have hrun : (runDetect st ((s, t) :: rest)).2
        = (if (detect_beats st s t).2 then [t] else [])
          ++ (runDetect (detect_beats st s t).1 rest).2 := rfl
    obtain ⟨ihp, ihb⟩ := ih (detect_beats st s t).1
    rcases detect_beats_cases st s t with ⟨hb, hlast, hgap⟩ | ⟨hb, hlast⟩
    · rw [hrun, hb]
      simp only [if_true, List.singleton_append]
      constructor
      · refine List.Pairwise.cons ?_ ihp
        intro u hu
        have h1 := ihb u hu
        rw [hlast] at h1
        linarith
      · intro u hu
        rcases List.mem_cons.mp hu with rfl | hu'
        · linarith
        · have h1 := ihb u hu'
          rw [hlast] at h1
          linarith
    · rw [hrun, hb]
      simp only [Bool.false_eq_true, if_false, List.nil_append]
      refine ⟨ihp, fun u hu => ?_⟩
      have h1 := ihb u hu
      rw [hlast] at h1
      exact h1

/-- C3: for any sequence of onset-strength samples with nondecreasing
timestamps, the beat tracker never fires two beats `60 / MAX_BPM` seconds
apart or closer — all fired timestamps are pairwise more than
`60 / 180` seconds apart — and a step fires only when the current time
exceeds the last fired beat's time by more than `60 / MAX_BPM`, firing
updating the last-beat time to the current time. -/
theorem beatTracker_min_spacing (inp : List (ℚ × ℚ))
    (_hmono : List.Chain' (· ≤ ·) (inp.map Prod.snd)) :
    List.Pairwise (fun a b => (60 / 180 : ℚ) < b - a)
      (runDetect initBeatState inp).2 ∧
    (∀ (st : BeatState) (s t : ℚ), (detect_beats st s t).2 = true →
      (detect_beats st s t).1.lastBeatTime = t ∧
        (60 / 180 : ℚ) < t - st.lastBeatTime) := by
  constructor
  · exact (runDetect_spacing inp initBeatState).1
  · intro st s t hfire
    rcases detect_beats_cases st s t with ⟨_, hlast, hgap⟩ | ⟨hb, _⟩
    · exact ⟨hlast, hgap⟩
    · rw [hfire] at hb
      exact absurd hb (by simp)

/-- Witness for C3: the single onset sample of strength 1 at time 1 (a
nondecreasing timestamp sequence); the fired-beat list of the run
satisfies the spacing property. -/
theorem beatTracker_min_spacing_witness :
    List.Pairwise (fun a b => (60 / 180 : ℚ) < b - a)
      (runDetect initBeatState [(1, 1)]).2 :=
  (beatTracker_min_spacing [(1, 1)] (by simp)).1

/-- An echo probe delay line: the 2-second buffer with a single
unit-amplitude sample written exactly `delay_samples = 13230` positions
(0.3 s at 44100 Hz) behind the most recent write (buffer index
`88200 - 13230 = 74970`); every other sample is zero. -/
def echoBugBuffer : List ℚ :=
  echoInitBuffer.set 74970 1

/-- A silent input frame of the processor's chunk size (512 samples). -/
def echoBugChunk : List ℚ :=
  List.replicate 512 0

/-- The output frame `apply_echo` computes (echo enabled, default
parameters `echo_delay = 0.3`, `echo_feedback = 0.4`) on the silent chunk
against the probe delay line. -/
def echoBugOut : List ℚ :=
  (apply_echo true (3 / 10) (4 / 10) echoBugChunk echoBugBuffer).1

/-- C1: evaluation of `apply_echo` at a failing input.  The probe sample
sits exactly `echo_delay` seconds behind the most recent write (index
`74970 = 88200 - 13230`), so per the claim the first output sample must be
`input + feedback * probe = 0 + 0.4 * 1`.  The code instead taps the delay
line at index `i + delay_samples` from its OLDEST end
(`echo_buffer[i + delay_samples]`), a tap roughly `2 s - echo_delay`
behind the most recent write, and outputs `0`. -/
theorem apply_echo_reads_wrong_tap :
    delaySamples (3 / 10) = 13230 ∧
    echoInitBuffer.length - delaySamples (3 / 10) = 74970 ∧
    echoBugBuffer.getD 74970 0 = 1 ∧
    echoBugOut.getD 0 0 = 0 ∧
    echoBugOut.getD 0 0
      ≠ echoBugChunk.getD 0 0 + (4 / 10) * echoBugBuffer.getD 74970 0 := by
  have hd : delaySamples (3 / 10) = 13230 := by
    unfold delaySamples
    norm_num
    rfl
  have hlen0 : echoInitBuffer.length = 88200 := by
    unfold echoInitBuffer
    rw [List.length_replicate]
  have hblen : echoBugBuffer.length = 88200 := by
    unfold echoBugBuffer echoInitBuffer
    rw [List.length_set, List.length_replicate]
  have hpos : 0 < echoBugChunk.length := by
    unfold echoBugChunk
    rw [List.length_replicate]
    norm_num
  have hprobe : echoBugBuffer.getD 74970 0 = 1 := by
    rw [List.getD_eq_getElem?_getD]
    unfold echoBugBuffer
    rw [List.getElem?_set_eq_of_lt 1 (by rw [hlen0]; norm_num)]
    rfl
  have htap : echoBugBuffer.getD 13230 0 = 0 := by
    rw [List.getD_eq_getElem?_getD]
    unfold echoBugBuffer
    rw [List.getElem?_set_ne (by norm_num : (74970 : ℕ) ≠ 13230)]
    unfold echoInitBuffer
    rw [List.getElem?_replicate_of_lt (by norm_num)]
    rfl
  have hchunk0 : echoBugChunk.getD 0 0 = 0 := by
    unfold echoBugChunk
    rw [List.getD_eq_getElem?_getD,
      List.getElem?_replicate_of_lt (by norm_num)]
    rfl
  have hout0 : echoBugOut.getD 0 0 = 0 := by
    unfold echoBugOut apply_echo
    simp only [reduceIte]
    rw [List.getD_eq_getElem?_getD, List.getElem?_ofFn, List.ofFnNthVal,
      dif_pos hpos, Option.getD_some]
    show (if ((0 : ℕ) : ℤ) < (echoBugBuffer.length : ℤ)
        - (delaySamples (3 / 10) : ℤ) then
      echoBugChunk.getD 0 0
        + 4 / 10 * echoBugBuffer.getD (0 + delaySamples (3 / 10)) 0
    else echoBugChunk.getD 0 0) = 0
    rw [hd, hblen, if_pos (by norm_num)]
    rw [hchunk0, Nat.zero_add, htap]
    norm_num
  refine ⟨hd, by rw [hlen0, hd], hprobe, hout0, ?_⟩
  rw [hout0, hchunk0, hprobe]
  norm_num

/-- Witness for C4: the bounds at the concrete one-update sequence with
beats at 0 s and 0.5 s. -/
theorem tempo_in_range_after_updates_witness :
    60 ≤ (([[0, 1 / 2]] : List (List ℚ)).foldl
        (fun p bt => update_tempo bt p.1 p.2) ((120 : ℚ), ([] : List ℚ))).1 ∧
    (([[0, 1 / 2]] : List (List ℚ)).foldl
        (fun p bt => update_tempo bt p.1 p.2) ((120 : ℚ), ([] : List ℚ))).1
      ≤ 180 :=
  tempo_in_range_after_updates [[0, 1 / 2]]

/-- Witness for C5 (amended): the characterization at the concrete beat
history `[0, 1, 2]` with tempo 120. -/
theorem update_tempo_fst_eq_amended_witness :
    (update_tempo [0, 1, 2] 120 []).1 = update_tempo_amended [0, 1, 2] 120 :=
  update_tempo_fst_eq_amended [0, 1, 2] 120 []

/-- Witness for C8: the empty queue at the stream's frame count 512. -/
theorem output_callback_empty_queue_silence_witness :
    (output_callback [] 512).1 = List.replicate 512 0 ∧
    (output_callback [] 512).1.length = 512 :=
  output_callback_empty_queue_silence 512

/-- Witness for C10: disabled echo at a concrete one-sample chunk and
one-sample delay line. -/
theorem apply_echo_disabled_identity_witness :
    apply_echo false (3 / 10) (4 / 10) [1] [2] = ([1], [2]) ∧
    (∀ chunk2 : List ℚ,
      apply_echo true (3 / 10) (4 / 10) chunk2
          (apply_echo false (3 / 10) (4 / 10) [1] [2]).2
        = apply_echo true (3 / 10) (4 / 10) chunk2 [2]) :=
  apply_echo_disabled_identity (3 / 10) (4 / 10) [1] [2]
